import Mathlib

/-!
Verification of the VLESS-style framing helpers, the SplitHTTP dialer and the
WireGuard connection-forward pipeline of this repository, as a shallow
embedding in Lean.

Bytes are modelled as natural numbers (values below 256 on real streams);
byte strings as lists of naturals.  Machine integer truncation is written
explicitly with percent 256 and the like.  Fallible operations return Option
or Except.
-/

set_option maxRecDepth 10000

/-- Capacity of one fixed-size buffer, the constant Size of the buf package. -/
def BufSize : Nat := 8192

/-- The buf.Buffer type: a fixed-capacity byte buffer.  Only the written
prefix is modelled; the capacity is BufSize as produced by buf.New. -/
structure Buffer where
  data : List Nat
deriving DecidableEq, Repr

/-- buf.Buffer.WriteByte: fails (returns an error, modelled as none) iff the
buffer is full, otherwise appends one byte. -/
def Buffer.writeByte (b : Buffer) (x : Nat) : Option Buffer :=
  if BufSize ≤ b.data.length then none
  else some ⟨b.data ++ [x]⟩

/-- buf.Buffer.Write: copies as many bytes as fit into the remaining
capacity and returns the count; it never returns an error. -/
def Buffer.write (b : Buffer) (xs : List Nat) : Buffer × Nat :=
  let n := min (BufSize - b.data.length) xs.length
  (⟨b.data ++ xs.take n⟩, n)

/-- PaddingConfig sub-record of the Addons record. -/
structure PaddingConfig where
  RegularMin : Nat
  RegularMax : Nat
  LongMin : Nat
  LongMax : Nat
deriving DecidableEq, Repr

/-- DelayConfig sub-record of the Addons record. -/
structure DelayConfig where
  IsRandom : Bool
  MinMillis : Nat
  MaxMillis : Nat
deriving DecidableEq, Repr

/-- SchedulerConfig sub-record of the Addons record. -/
structure SchedulerConfig where
  TimeoutMillis : Nat
deriving DecidableEq, Repr

/-- Modelled from the spec: the protobuf-generated Addons record (its
generated Go source is not part of the provided slice).  Fields per spec
section 3: Flow (string), Seed (bytes), Mode (enum), Duration (string) and
the three optional sub-records.  Strings are modelled as their byte
sequences. -/
structure Addons where
  Flow : List Nat
  Seed : List Nat
  Mode : Nat
  Duration : List Nat
  Padding : Option PaddingConfig
  Delay : Option DelayConfig
  Scheduler : Option SchedulerConfig
deriving DecidableEq, Repr

/-- The bytes of the string constant vless.XRV, that is xtls-rprx-vision. -/
def XRV : List Nat := [120, 116, 108, 115, 45, 114, 112, 114, 120, 45, 118, 105, 115, 105, 111, 110]

/-- Modelled from the spec: the enum value SeedMode_PaddingPlusDelay, the
only mode the spec names.  Its concrete numeral is not observable by any
claim; it is nonzero so that a set mode is serialized. -/
def SeedMode_PaddingPlusDelay : Nat := 1

/-- The Addons record with every field at its default, as produced by
new(Addons). -/
def emptyAddons : Addons := ⟨[], [], 0, [], none, none, none⟩

/-- Fuel-driven base-128 varint encoder (little-endian groups of 7 bits,
high bit marking continuation).  The fuel argument only bounds recursion;
varint below instantiates it so that it never runs out. -/
def varintAux (fuel n : Nat) : List Nat :=
  match fuel with
  | 0 => [n % 128]
  | fuel + 1 => if n < 128 then [n] else (n % 128 + 128) :: varintAux fuel (n / 128)

/-- Modelled from the spec: protobuf varint encoding of a natural number. -/
def varint (n : Nat) : List Nat := varintAux n n

/-- A length-delimited protobuf field: single-byte tag, varint length,
payload.  All field numbers in the Addons schema are below 16, so every tag
is one byte. -/
def pbLenField (tag : Nat) (payload : List Nat) : List Nat :=
  tag :: varint payload.length ++ payload

/-- A string or bytes field, omitted when empty (proto3 default). -/
def pbBytesField (tag : Nat) (payload : List Nat) : List Nat :=
  if payload = [] then [] else pbLenField tag payload

/-- A varint-typed field, omitted when zero (proto3 default). -/
def pbVarintField (tag : Nat) (n : Nat) : List Nat :=
  if n = 0 then [] else tag :: varint n

/-- A bool field, omitted when false (proto3 default). -/
def pbBoolField (tag : Nat) (b : Bool) : List Nat :=
  if b then [tag, 1] else []

/-- An embedded-message field, emitted exactly when the sub-record is
present. -/
def pbMsgField (tag : Nat) (body : Option (List Nat)) : List Nat :=
  match body with
  | none => []
  | some bs => pbLenField tag bs

/-- Modelled from the spec: serialization of PaddingConfig, fields 1-4 in
declaration order RegularMin, RegularMax, LongMin, LongMax, all varints. -/
def marshalPadding (p : PaddingConfig) : List Nat :=
  pbVarintField 8 p.RegularMin ++ pbVarintField 16 p.RegularMax ++
  pbVarintField 24 p.LongMin ++ pbVarintField 32 p.LongMax

/-- Modelled from the spec: serialization of DelayConfig, fields 1-3 in
declaration order IsRandom, MinMillis, MaxMillis. -/
def marshalDelay (d : DelayConfig) : List Nat :=
  pbBoolField 8 d.IsRandom ++ pbVarintField 16 d.MinMillis ++ pbVarintField 24 d.MaxMillis

/-- Modelled from the spec: serialization of SchedulerConfig, field 1
TimeoutMillis. -/
def marshalScheduler (s : SchedulerConfig) : List Nat :=
  pbVarintField 8 s.TimeoutMillis

/-- Modelled from the spec: proto.Marshal for the Addons record, spec
section 6 schema: field 1 Flow (string, tag 10), field 2 Seed (bytes, tag
18), field 3 Mode (varint, tag 24), field 4 Duration (string, tag 34),
field 5 Padding (tag 42), field 6 Delay (tag 50), field 7 Scheduler
(tag 58). -/
def marshal (a : Addons) : List Nat :=
  pbBytesField 10 a.Flow ++ pbBytesField 18 a.Seed ++ pbVarintField 24 a.Mode ++
  pbBytesField 34 a.Duration ++ pbMsgField 42 (a.Padding.map marshalPadding) ++
  pbMsgField 50 (a.Delay.map marshalDelay) ++ pbMsgField 58 (a.Scheduler.map marshalScheduler)

/-- Varint decoder: returns the value and the remaining input. -/
def parseVarint : List Nat → Option (Nat × List Nat)
  | [] => none
  | b :: rest =>
    if b < 128 then some (b, rest)
    else
      match parseVarint rest with
      | none => none
      | some (n, r) => some (b % 128 + 128 * n, r)

/-- Length-delimited payload decoder: varint length, then that many bytes. -/
def parseLen (input : List Nat) : Option (List Nat × List Nat) :=
  match parseVarint input with
  | none => none
  | some (len, rest) =>
    if len ≤ rest.length then some (rest.take len, rest.drop len) else none

/-- Modelled from the spec: field loop of the PaddingConfig deserializer.
Fuel bounds the recursion; each iteration consumes at least one byte. -/
def parsePaddingAux (fuel : Nat) (input : List Nat) (p : PaddingConfig) : Option PaddingConfig :=
  match input with
  | [] => some p
  | t :: rest =>
    match fuel with
    | 0 => none
    | fuel + 1 =>
      match parseVarint rest with
      | none => none
      | some (n, r) =>
        if t = 8 then parsePaddingAux fuel r { p with RegularMin := n }
        else if t = 16 then parsePaddingAux fuel r { p with RegularMax := n }
        else if t = 24 then parsePaddingAux fuel r { p with LongMin := n }
        else if t = 32 then parsePaddingAux fuel r { p with LongMax := n }
        else none

/-- PaddingConfig deserializer. -/
def parsePadding (input : List Nat) : Option PaddingConfig :=
  parsePaddingAux input.length input ⟨0, 0, 0, 0⟩

/-- Modelled from the spec: field loop of the DelayConfig deserializer. -/
def parseDelayAux (fuel : Nat) (input : List Nat) (d : DelayConfig) : Option DelayConfig :=
  match input with
  | [] => some d
  | t :: rest =>
    match fuel with
    | 0 => none
    | fuel + 1 =>
      match parseVarint rest with
      | none => none
      | some (n, r) =>
        if t = 8 then parseDelayAux fuel r { d with IsRandom := n ≠ 0 }
        else if t = 16 then parseDelayAux fuel r { d with MinMillis := n }
        else if t = 24 then parseDelayAux fuel r { d with MaxMillis := n }
        else none

/-- DelayConfig deserializer. -/
def parseDelay (input : List Nat) : Option DelayConfig :=
  parseDelayAux input.length input ⟨false, 0, 0⟩

/-- Modelled from the spec: field loop of the SchedulerConfig deserializer. -/
def parseSchedulerAux (fuel : Nat) (input : List Nat) (s : SchedulerConfig) : Option SchedulerConfig :=
  match input with
  | [] => some s
  | t :: rest =>
    match fuel with
    | 0 => none
    | fuel + 1 =>
      match parseVarint rest with
      | none => none
      | some (n, r) =>
        if t = 8 then parseSchedulerAux fuel r { s with TimeoutMillis := n }
        else none

/-- SchedulerConfig deserializer. -/
def parseScheduler (input : List Nat) : Option SchedulerConfig :=
  parseSchedulerAux input.length input ⟨0⟩

/-- Modelled from the spec: field loop of proto.Unmarshal for the Addons
record.  Fuel bounds the recursion; each iteration consumes at least one
byte of input. -/
def parseAddonsAux (fuel : Nat) (input : List Nat) (a : Addons) : Option Addons :=
  match input with
  | [] => some a
  | t :: rest =>
    match fuel with
    | 0 => none
    | fuel + 1 =>
      if t = 10 then
        match parseLen rest with
        | none => none
        | some (s, r) => parseAddonsAux fuel r { a with Flow := s }
      else if t = 18 then
        match parseLen rest with
        | none => none
        | some (s, r) => parseAddonsAux fuel r { a with Seed := s }
      else if t = 24 then
        match parseVarint rest with
        | none => none
        | some (n, r) => parseAddonsAux fuel r { a with Mode := n }
      else if t = 34 then
        match parseLen rest with
        | none => none
        | some (s, r) => parseAddonsAux fuel r { a with Duration := s }
      else if t = 42 then
        match parseLen rest with
        | none => none
        | some (body, r) =>
          match parsePadding body with
          | none => none
          | some p => parseAddonsAux fuel r { a with Padding := some p }
      else if t = 50 then
        match parseLen rest with
        | none => none
        | some (body, r) =>
          match parseDelay body with
          | none => none
          | some d => parseAddonsAux fuel r { a with Delay := some d }
      else if t = 58 then
        match parseLen rest with
        | none => none
        | some (body, r) =>
          match parseScheduler body with
          | none => none
          | some s => parseAddonsAux fuel r { a with Scheduler := some s }
      else none

/-- Modelled from the spec: proto.Unmarshal into a fresh Addons record. -/
def unmarshal (input : List Nat) : Option Addons :=
  parseAddonsAux input.length input emptyAddons

/-- EncodeHeaderAddons: when Flow is xtls-rprx-vision or Seed is non-empty,
write one byte holding the serialized length truncated to a byte, then the
serialized record; otherwise write a single zero byte.  none models a
returned error. -/
def EncodeHeaderAddons (buffer : Buffer) (addons : Addons) : Option Buffer :=
  if addons.Flow = XRV ∨ 0 < addons.Seed.length then
    let bs := marshal addons
    match buffer.writeByte (bs.length % 256) with
    | none => none
    | some b => some (b.write bs).1
  else
    match buffer.writeByte 0 with
    | none => none
    | some b => some b

/-- DecodeHeaderAddons with the reader modelled as the byte stream it will
produce: read one length byte, and unless it is zero read that many bytes
and deserialize them.  none models a returned error. -/
def DecodeHeaderAddons (stream : List Nat) : Option Addons :=
  match stream with
  | [] => none
  | l :: rest =>
    if l = 0 then some emptyAddons
    else if rest.length < l then none
    else unmarshal (rest.take l)

/-- LengthPacketWriter.WriteMultiBuffer with the underlying io.Writer
modelled by the bytes handed to it: an empty multi-buffer writes nothing;
otherwise one record of two big-endian length bytes followed by the
concatenated payload.  The multi-buffer is a list of byte lists. -/
def LengthPacketWriter.WriteMultiBuffer (mb : List (List Nat)) : List Nat :=
  let length := mb.flatten.length
  if length = 0 then []
  else ((length >>> 8) % 256) :: (length % 256) :: mb.flatten

/-- Chunking loop of LengthPacketReader.ReadMultiBuffer: consume length
bytes from the stream in pieces of at most BufSize.  Fuel bounds the
recursion; each iteration consumes at least one byte of length. -/
def readChunksAux (fuel length : Nat) (stream : List Nat) : Option (List (List Nat)) :=
  if length = 0 then some []
  else
    match fuel with
    | 0 => none
    | fuel + 1 =>
      let size := min length BufSize
      if stream.length < size then none
      else
        match readChunksAux fuel (length - size) (stream.drop size) with
        | none => none
        | some rest => some (stream.take size :: rest)

/-- LengthPacketReader.ReadMultiBuffer with the underlying reader modelled
as the byte stream it will produce: two length bytes (big-endian, so for
byte values the bitwise or of the shifted high byte with the low byte is
their weighted sum), then the payload in chunks of at most BufSize.  none
models a returned error. -/
def LengthPacketReader.ReadMultiBuffer (stream : List Nat) : Option (List (List Nat)) :=
  match stream with
  | c0 :: c1 :: rest =>
    let length := c0 * 256 + c1
    readChunksAux length length rest
  | _ => none

/-- Per-element loop of MultiLengthPacketWriter.WriteMultiBuffer: skip
elements that are empty or do not fit a BufSize buffer with their two
length bytes; frame every other element into a fresh buffer. -/
def multiLengthWriteLoop : List (List Nat) → List (List Nat)
  | [] => []
  | b :: mb =>
    let length := b.length
    if length = 0 ∨ BufSize < length + 2 then multiLengthWriteLoop mb
    else
      match Buffer.writeByte ⟨[]⟩ ((length >>> 8) % 256) with
      | none => multiLengthWriteLoop mb
      | some eb =>
        match eb.writeByte (length % 256) with
        | none => multiLengthWriteLoop mb
        | some eb => (eb.write b).1.data :: multiLengthWriteLoop mb

/-- MultiLengthPacketWriter.WriteMultiBuffer: returns the multi-buffer
committed to the downstream writer, or none when the accumulated vector is
empty and nothing is written (the call still succeeds). -/
def MultiLengthPacketWriter.WriteMultiBuffer (mb : List (List Nat)) : Option (List (List Nat)) :=
  let mb2Write := multiLengthWriteLoop mb
  if mb2Write = [] then none else some mb2Write

/-- CheckSeed on the Padding sub-records: both present and field-wise
equal, or both absent. -/
def checkPadding : Option PaddingConfig → Option PaddingConfig → Bool
  | some p, some q =>
    decide (p.RegularMin = q.RegularMin) && decide (p.RegularMax = q.RegularMax) &&
    decide (p.LongMin = q.LongMin) && decide (p.LongMax = q.LongMax)
  | none, none => true
  | _, _ => false

/-- CheckSeed on the Delay sub-records. -/
def checkDelay : Option DelayConfig → Option DelayConfig → Bool
  | some d, some e =>
    decide (d.IsRandom = e.IsRandom) && decide (d.MinMillis = e.MinMillis) &&
    decide (d.MaxMillis = e.MaxMillis)
  | none, none => true
  | _, _ => false

/-- CheckSeed on the Scheduler sub-records. -/
def checkScheduler : Option SchedulerConfig → Option SchedulerConfig → Bool
  | some s, some t => decide (s.TimeoutMillis = t.TimeoutMillis)
  | none, none => true
  | _, _ => false

/-- CheckSeed: true models a nil error, false models any of the returned
mismatch errors.  The source returns on the first failing comparison; the
success value is the conjunction of all of them. -/
def CheckSeed (requestAddons responseAddons : Addons) : Bool :=
  decide (requestAddons.Seed = responseAddons.Seed) &&
  decide (requestAddons.Mode = responseAddons.Mode) &&
  decide (requestAddons.Duration = responseAddons.Duration) &&
  checkPadding requestAddons.Padding responseAddons.Padding &&
  checkDelay requestAddons.Delay responseAddons.Delay &&
  checkScheduler requestAddons.Scheduler responseAddons.Scheduler

/-- PopulateSeed: with a non-empty seed string (modelled by its bytes) set
the fixed seed profile; otherwise leave the record untouched. -/
def PopulateSeed (seed : List Nat) (addons : Addons) : Addons :=
  if 0 < seed.length then
    { addons with
      Seed := [1]
      Mode := SeedMode_PaddingPlusDelay
      Duration := [48, 45, 56]
      Padding := some ⟨0, 256, 900, 1400⟩
      Delay := some ⟨true, 100, 500⟩
      Scheduler := some ⟨600⟩ }
  else addons

/-- Distinct protocol errors of the SplitHTTP Dial download phase. -/
inductive DialError where
  | invalidStatusCode (status : Nat)
  | failedInitialResponse
deriving DecidableEq, Repr

/-- The observable download response handed to Dial: HTTP status code and
the bytes the response body will produce. -/
structure DownResponse where
  statusCode : Nat
  body : List Nat
deriving DecidableEq, Repr

/-- Download-half checks of the SplitHTTP Dial after the GET completes:
require status 200, then read and discard exactly two initial bytes; the
returned connection reads the remaining body.  Modelled on the response
alone; request construction and transport errors are upstream of these
checks. -/
def dialDownloadPhase (resp : DownResponse) : Except DialError (List Nat) :=
  if resp.statusCode ≠ 200 then .error (.invalidStatusCode resp.statusCode)
  else if resp.body.length < 2 then .error .failedInitialResponse
  else .ok (resp.body.drop 2)

/-- Wrap-around of a 64-bit signed integer, the type of the upload request
counter. -/
def wrap64 (x : Int) : Int := (x + 2 ^ 63) % 2 ^ 64 - 2 ^ 63

/-- Producer loop of the SplitHTTP uploader: for each multi-buffer chunk
read from the upload pipe, launch one POST carrying the current counter as
its seq value, then increment the counter (a Go int64).  The result lists
the launched POSTs as seq-chunk pairs in launch order. -/
def uploadProducerLoop : Int → List (List (List Nat)) → List (Int × List (List Nat))
  | _, [] => []
  | counter, chunk :: rest => (counter, chunk) :: uploadProducerLoop (wrap64 (counter + 1)) rest

/-- Modelled from the spec: state of the counting semaphore gating uploads
(the semaphore package itself is outside the provided slice).  permits is
the number of free tokens, inflight the number of running POST tasks. -/
structure GateState where
  permits : Nat
  inflight : Nat
deriving DecidableEq, Repr

/-- Modelled from the spec: transitions of the upload gate.  A POST task is
launched only after taking a permit; a finishing task returns its permit
whether it succeeded or failed. -/
inductive GateStep : GateState → GateState → Prop
  | launch (p f : Nat) : GateStep ⟨p + 1, f⟩ ⟨p, f + 1⟩
  | finish (p f : Nat) : GateStep ⟨p, f + 1⟩ ⟨p + 1, f⟩

/-- States reachable from the initial gate of n free permits and no
in-flight POST. -/
inductive GateReachable (n : Nat) : GateState → Prop
  | init : GateReachable n ⟨n, 0⟩
  | step {s t : GateState} : GateReachable n s → GateStep s t → GateReachable n t

/-- The link returned by dispatcher.Dispatch, with the multi-buffers its
Reader will produce. -/
structure TransportLink where
  serverData : List (List Nat)
deriving DecidableEq, Repr

/-- The request half of forwardConnection: copy the inbound connection into
link.Writer.  The link pointer is dereferenced without a guard; a nil link
(dispatch failed) faults instead of copying. -/
def linkWriterCopy (link : Option TransportLink) (connData : List (List Nat)) :
    Except Unit (List (List Nat)) :=
  match link with
  | none => .error ()
  | some _ => .ok connData

/-- The response half of forwardConnection: copy link.Reader back into the
connection, again dereferencing the link without a guard. -/
def linkReaderCopy (link : Option TransportLink) : Except Unit (List (List Nat)) :=
  match link with
  | none => .error ()
  | some l => .ok l.serverData

/-- Observable outcome of forwardConnection past the Dispatch call. -/
structure ForwardOutcome where
  dispatchErrorLoggedAtError : Bool
  requestHalf : Except Unit (List (List Nat))
  responseHalf : Except Unit (List (List Nat))

/-- forwardConnection after dispatcher.Dispatch returns: a Dispatch error
is logged at error level but the function does not return there; both
pipeline halves then run against the link from the failed call. -/
def forwardConnection (dispatch : Except String TransportLink)
    (connData : List (List Nat)) : ForwardOutcome :=
  let loggedAtError := match dispatch with
    | .error _ => true
    | .ok _ => false
  let link := dispatch.toOption
  { dispatchErrorLoggedAtError := loggedAtError
    requestHalf := linkWriterCopy link connData
    responseHalf := linkReaderCopy link }

/-- The varint encoder ignores its fuel as long as the fuel is at least the
encoded value. -/
theorem varintAux_irrel (m : Nat) : ∀ n fuel fuel' : Nat, n ≤ m → n ≤ fuel → n ≤ fuel' →
    varintAux fuel n = varintAux fuel' n := by
  induction m with
  | zero =>
    intro n fuel fuel' hm _ _
    interval_cases n
    cases fuel <;> cases fuel' <;> simp [varintAux]
  | succ m ih =>
    intro n fuel fuel' hm hf hf'
    by_cases h : n < 128
    · cases fuel <;> cases fuel' <;> simp [varintAux, h] <;> omega
    · match fuel, fuel' with
      | 0, _ => omega
      | _, 0 => omega
      | f + 1, f' + 1 =>
        simp only [varintAux, if_neg h]
        have hd : n / 128 < n := Nat.div_lt_self (by omega) (by omega)
        rw [ih (n / 128) f f' (by omega) (by omega) (by omega)]

/-- One-step unfolding of the varint encoder. -/
theorem varint_eq (n : Nat) : varint n = if n < 128 then [n] else (n % 128 + 128) :: varint (n / 128) := by
  by_cases h : n < 128
  · cases n with
    | zero => simp [varint, varintAux]
    | succ k => simp [varint, varintAux, h]
  · match n, h with
    | k + 1, h =>
      simp only [varint, varintAux, if_neg h]
      have hd : (k + 1) / 128 < k + 1 := Nat.div_lt_self (by omega) (by omega)
      rw [varintAux_irrel k ((k + 1) / 128) k ((k + 1) / 128) (by omega) (by omega) (by omega)]

/-- The varint decoder inverts the encoder and consumes exactly its
output. -/
theorem parseVarint_append (n : Nat) : ∀ rest : List Nat,
    parseVarint (varint n ++ rest) = some (n, rest) := by
  induction n using Nat.strong_induction_on with
  | _ n ih =>
    intro rest
    rw [varint_eq]
    by_cases h : n < 128
    · simp [parseVarint, h]
    · have hd : n / 128 < n := Nat.div_lt_self (by omega) (by omega)
      simp only [if_neg h, List.cons_append, parseVarint, ih (n / 128) hd rest]
      rw [if_neg (by omega)]
      simp only [Option.some.injEq, Prod.mk.injEq, and_true]
      omega

/-- The length-delimited payload decoder inverts pbLenField minus its tag
byte. -/
theorem parseLen_append (s rest : List Nat) :
    parseLen (varint s.length ++ (s ++ rest)) = some (s, rest) := by
  simp only [parseLen, parseVarint_append]
  rw [if_pos (by simp)]
  simp [List.take_left, List.drop_left]

/-- The varint decoder consumes at least one byte. -/
theorem parseVarint_lt : ∀ (input : List Nat) (n : Nat) (r : List Nat),
    parseVarint input = some (n, r) → r.length < input.length := by
  intro input
  induction input with
  | nil => intro n r h; simp [parseVarint] at h
  | cons b rest ih =>
    intro n r h
    simp only [parseVarint] at h
    by_cases hb : b < 128
    · rw [if_pos hb] at h
      cases h
      simp
    · rw [if_neg hb] at h
      rcases hP : parseVarint rest with _ | ⟨n', r'⟩ <;> rw [hP] at h <;> dsimp only at h
      · cases h
      · simp only [Option.some.injEq, Prod.mk.injEq] at h
        obtain ⟨h1, h2⟩ := h
        have := ih n' r' hP
        simp only [List.length_cons, ← h2]
        omega

/-- The payload decoder consumes at least one byte. -/
theorem parseLen_lt (input s r : List Nat) (h : parseLen input = some (s, r)) :
    r.length < input.length := by
  simp only [parseLen] at h
  rcases hP : parseVarint input with _ | ⟨len, rest⟩ <;> rw [hP] at h <;> dsimp only at h
  · cases h
  · have hlt := parseVarint_lt input len rest hP
    by_cases hle : len ≤ rest.length
    · rw [if_pos hle] at h
      cases h
      simp only [List.length_drop]
      omega
    · rw [if_neg hle] at h; cases h

/-- The PaddingConfig field loop ignores its fuel as long as the fuel is at
least the input length. -/
theorem parsePaddingAux_irrel (m : Nat) : ∀ (input : List Nat) (p : PaddingConfig) (fuel fuel' : Nat),
    input.length ≤ m → input.length ≤ fuel → input.length ≤ fuel' →
    parsePaddingAux fuel input p = parsePaddingAux fuel' input p := by
  induction m with
  | zero =>
    intro input p fuel fuel' hm _ _
    have : input = [] := List.eq_nil_of_length_eq_zero (by omega)
    subst this
    simp only [parsePaddingAux]
  | succ m ih =>
    intro input p fuel fuel' hm hf hf'
    match input with
    | [] => simp only [parsePaddingAux]
    | t :: rest =>
      simp only [List.length_cons] at hm hf hf'
      match fuel, fuel' with
      | 0, _ => omega
      | _, 0 => omega
      | f + 1, f' + 1 =>
        simp only [parsePaddingAux]
        cases hP : parseVarint rest with
        | none => rfl
        | some v =>
          obtain ⟨n, r⟩ := v
          have hr := parseVarint_lt rest n r hP
          split_ifs <;> first
            | rfl
            | exact ih r _ f f' (by omega) (by omega) (by omega)

/-- The DelayConfig field loop ignores its fuel as long as the fuel is at
least the input length. -/
theorem parseDelayAux_irrel (m : Nat) : ∀ (input : List Nat) (d : DelayConfig) (fuel fuel' : Nat),
    input.length ≤ m → input.length ≤ fuel → input.length ≤ fuel' →
    parseDelayAux fuel input d = parseDelayAux fuel' input d := by
  induction m with
  | zero =>
    intro input d fuel fuel' hm _ _
    have : input = [] := List.eq_nil_of_length_eq_zero (by omega)
    subst this
    simp only [parseDelayAux]
  | succ m ih =>
    intro input d fuel fuel' hm hf hf'
    match input with
    | [] => simp only [parseDelayAux]
    | t :: rest =>
      simp only [List.length_cons] at hm hf hf'
      match fuel, fuel' with
      | 0, _ => omega
      | _, 0 => omega
      | f + 1, f' + 1 =>
        simp only [parseDelayAux]
        cases hP : parseVarint rest with
        | none => rfl
        | some v =>
          obtain ⟨n, r⟩ := v
          have hr := parseVarint_lt rest n r hP
          split_ifs <;> first
            | rfl
            | exact ih r _ f f' (by omega) (by omega) (by omega)

/-- The SchedulerConfig field loop ignores its fuel as long as the fuel is
at least the input length. -/
theorem parseSchedulerAux_irrel (m : Nat) : ∀ (input : List Nat) (s : SchedulerConfig) (fuel fuel' : Nat),
    input.length ≤ m → input.length ≤ fuel → input.length ≤ fuel' →
    parseSchedulerAux fuel input s = parseSchedulerAux fuel' input s := by
  induction m with
  | zero =>
    intro input s fuel fuel' hm _ _
    have : input = [] := List.eq_nil_of_length_eq_zero (by omega)
    subst this
    simp only [parseSchedulerAux]
  | succ m ih =>
    intro input s fuel fuel' hm hf hf'
    match input with
    | [] => simp only [parseSchedulerAux]
    | t :: rest =>
      simp only [List.length_cons] at hm hf hf'
      match fuel, fuel' with
      | 0, _ => omega
      | _, 0 => omega
      | f + 1, f' + 1 =>
        simp only [parseSchedulerAux]
        cases hP : parseVarint rest with
        | none => rfl
        | some v =>
          obtain ⟨n, r⟩ := v
          have hr := parseVarint_lt rest n r hP
          split_ifs <;> first
            | rfl
            | exact ih r _ f f' (by omega) (by omega) (by omega)

/-- The Addons field loop ignores its fuel as long as the fuel is at least
the input length. -/
theorem parseAddonsAux_irrel (m : Nat) : ∀ (input : List Nat) (a : Addons) (fuel fuel' : Nat),
    input.length ≤ m → input.length ≤ fuel → input.length ≤ fuel' →
    parseAddonsAux fuel input a = parseAddonsAux fuel' input a := by
  induction m with
  | zero =>
    intro input a fuel fuel' hm _ _
    have : input = [] := List.eq_nil_of_length_eq_zero (by omega)
    subst this
    simp only [parseAddonsAux]
  | succ m ih =>
    intro input a fuel fuel' hm hf hf'
    match input with
    | [] => simp only [parseAddonsAux]
    | t :: rest =>
      simp only [List.length_cons] at hm hf hf'
      match fuel, fuel' with
      | 0, _ => omega
      | _, 0 => omega
      | f + 1, f' + 1 =>
        simp only [parseAddonsAux]
        split_ifs
        all_goals
          first
          | rfl
          | (cases hP : parseVarint rest with
             | none => rfl
             | some v =>
               obtain ⟨n, r⟩ := v
               have hr := parseVarint_lt rest n r hP
               dsimp only
               exact ih r _ f f' (by omega) (by omega) (by omega))
          | (cases hP : parseLen rest with
             | none => rfl
             | some v =>
               obtain ⟨s, r⟩ := v
               have hr := parseLen_lt rest s r hP
               dsimp only
               first
               | exact ih r _ f f' (by omega) (by omega) (by omega)
               | (cases parsePadding s with
                  | none => rfl
                  | some p => exact ih r _ f f' (by omega) (by omega) (by omega))
               | (cases parseDelay s with
                  | none => rfl
                  | some d => exact ih r _ f f' (by omega) (by omega) (by omega))
               | (cases parseScheduler s with
                  | none => rfl
                  | some sc => exact ih r _ f f' (by omega) (by omega) (by omega)))

/-- Either a numeric field value is nonzero or the default accumulator
already holds it. -/
theorem nat_field_case (n : Nat) : n ≠ 0 ∨ (0 : Nat) = n := by
  rcases Nat.eq_zero_or_pos n with h | h
  · exact Or.inr h.symm
  · exact Or.inl (by omega)

/-- Either a bool field is set or the default accumulator already holds
it. -/
theorem bool_field_case (b : Bool) : b = true ∨ false = b := by
  cases b <;> simp

/-- Parsing one serialized RegularMin field updates that field and hands
the rest of the input to the loop. -/
theorem parsePaddingAux_step8 (n : Nat) (rest : List Nat) (p : PaddingConfig) (fuel : Nat)
    (hfuel : (pbVarintField 8 n ++ rest).length ≤ fuel) (h : n ≠ 0 ∨ p.RegularMin = n) :
    parsePaddingAux fuel (pbVarintField 8 n ++ rest) p
      = parsePaddingAux rest.length rest { p with RegularMin := n } := by
  by_cases hn : n = 0
  · subst hn
    have hp : ({ p with RegularMin := 0 } : PaddingConfig) = p := by
      have := h.resolve_left (by simp)
      cases p
      simp_all
    simp only [pbVarintField, if_pos rfl, List.nil_append] at hfuel ⊢
    rw [hp]
    exact parsePaddingAux_irrel fuel rest p fuel rest.length hfuel hfuel le_rfl
  · simp only [pbVarintField, if_neg hn, List.cons_append, List.append_assoc] at hfuel ⊢
    match fuel with
    | 0 => simp at hfuel
    | f + 1 =>
      simp only [parsePaddingAux, parseVarint_append]
      simp only [List.length_cons, List.length_append] at hfuel
      exact parsePaddingAux_irrel f rest _ f rest.length (by omega) (by omega) le_rfl

/-- Parsing one serialized RegularMax field. -/
theorem parsePaddingAux_step16 (n : Nat) (rest : List Nat) (p : PaddingConfig) (fuel : Nat)
    (hfuel : (pbVarintField 16 n ++ rest).length ≤ fuel) (h : n ≠ 0 ∨ p.RegularMax = n) :
    parsePaddingAux fuel (pbVarintField 16 n ++ rest) p
      = parsePaddingAux rest.length rest { p with RegularMax := n } := by
  by_cases hn : n = 0
  · subst hn
    have hp : ({ p with RegularMax := 0 } : PaddingConfig) = p := by
      have := h.resolve_left (by simp)
      cases p
      simp_all
    simp only [pbVarintField, if_pos rfl, List.nil_append] at hfuel ⊢
    rw [hp]
    exact parsePaddingAux_irrel fuel rest p fuel rest.length hfuel hfuel le_rfl
  · simp only [pbVarintField, if_neg hn, List.cons_append, List.append_assoc] at hfuel ⊢
    match fuel with
    | 0 => simp at hfuel
    | f + 1 =>
      simp only [parsePaddingAux, parseVarint_append]
      simp only [List.length_cons, List.length_append] at hfuel
      exact parsePaddingAux_irrel f rest _ f rest.length (by omega) (by omega) le_rfl

/-- Parsing one serialized LongMin field. -/
theorem parsePaddingAux_step24 (n : Nat) (rest : List Nat) (p : PaddingConfig) (fuel : Nat)
    (hfuel : (pbVarintField 24 n ++ rest).length ≤ fuel) (h : n ≠ 0 ∨ p.LongMin = n) :
    parsePaddingAux fuel (pbVarintField 24 n ++ rest) p
      = parsePaddingAux rest.length rest { p with LongMin := n } := by
  by_cases hn : n = 0
  · subst hn
    have hp : ({ p with LongMin := 0 } : PaddingConfig) = p := by
      have := h.resolve_left (by simp)
      cases p
      simp_all
    simp only [pbVarintField, if_pos rfl, List.nil_append] at hfuel ⊢
    rw [hp]
    exact parsePaddingAux_irrel fuel rest p fuel rest.length hfuel hfuel le_rfl
  · simp only [pbVarintField, if_neg hn, List.cons_append, List.append_assoc] at hfuel ⊢
    match fuel with
    | 0 => simp at hfuel
    | f + 1 =>
      simp only [parsePaddingAux, parseVarint_append]
      simp only [List.length_cons, List.length_append] at hfuel
      exact parsePaddingAux_irrel f rest _ f rest.length (by omega) (by omega) le_rfl

/-- Parsing one serialized LongMax field. -/
theorem parsePaddingAux_step32 (n : Nat) (rest : List Nat) (p : PaddingConfig) (fuel : Nat)
    (hfuel : (pbVarintField 32 n ++ rest).length ≤ fuel) (h : n ≠ 0 ∨ p.LongMax = n) :
    parsePaddingAux fuel (pbVarintField 32 n ++ rest) p
      = parsePaddingAux rest.length rest { p with LongMax := n } := by
  by_cases hn : n = 0
  · subst hn
    have hp : ({ p with LongMax := 0 } : PaddingConfig) = p := by
      have := h.resolve_left (by simp)
      cases p
      simp_all
    simp only [pbVarintField, if_pos rfl, List.nil_append] at hfuel ⊢
    rw [hp]
    exact parsePaddingAux_irrel fuel rest p fuel rest.length hfuel hfuel le_rfl
  · simp only [pbVarintField, if_neg hn, List.cons_append, List.append_assoc] at hfuel ⊢
    match fuel with
    | 0 => simp at hfuel
    | f + 1 =>
      simp only [parsePaddingAux, parseVarint_append]
      simp only [List.length_cons, List.length_append] at hfuel
      exact parsePaddingAux_irrel f rest _ f rest.length (by omega) (by omega) le_rfl

/-- The PaddingConfig deserializer inverts its serializer. -/
theorem parsePadding_marshal (p : PaddingConfig) : parsePadding (marshalPadding p) = some p := by
  unfold parsePadding marshalPadding
  rw [List.append_assoc, List.append_assoc]
  rw [show pbVarintField 32 p.LongMax = pbVarintField 32 p.LongMax ++ [] from (List.append_nil _).symm]
  rw [parsePaddingAux_step8 _ _ _ _ le_rfl (nat_field_case _)]
  rw [parsePaddingAux_step16 _ _ _ _ le_rfl (nat_field_case _)]
  rw [parsePaddingAux_step24 _ _ _ _ le_rfl (nat_field_case _)]
  rw [parsePaddingAux_step32 _ _ _ _ le_rfl (nat_field_case _)]
  rfl

/-- Parsing one serialized IsRandom field. -/
theorem parseDelayAux_step8 (b : Bool) (rest : List Nat) (d : DelayConfig) (fuel : Nat)
    (hfuel : (pbBoolField 8 b ++ rest).length ≤ fuel) (h : b = true ∨ d.IsRandom = b) :
    parseDelayAux fuel (pbBoolField 8 b ++ rest) d
      = parseDelayAux rest.length rest { d with IsRandom := b } := by
  cases b with
  | false =>
    have hd : ({ d with IsRandom := false } : DelayConfig) = d := by
      have := h.resolve_left (by simp)
      cases d
      simp_all
    simp only [show pbBoolField 8 false = [] from rfl, List.nil_append] at hfuel ⊢
    rw [hd]
    exact parseDelayAux_irrel fuel rest d fuel rest.length hfuel hfuel le_rfl
  | true =>
    simp only [show pbBoolField 8 true = [8, 1] from rfl, List.cons_append,
      List.nil_append] at hfuel ⊢
    match fuel with
    | 0 => simp at hfuel
    | f + 1 =>
      simp only [parseDelayAux, parseVarint]
      norm_num
      simp only [List.length_cons] at hfuel
      exact parseDelayAux_irrel f rest _ f rest.length (by omega) (by omega) le_rfl

/-- Parsing one serialized MinMillis field. -/
theorem parseDelayAux_step16 (n : Nat) (rest : List Nat) (d : DelayConfig) (fuel : Nat)
    (hfuel : (pbVarintField 16 n ++ rest).length ≤ fuel) (h : n ≠ 0 ∨ d.MinMillis = n) :
    parseDelayAux fuel (pbVarintField 16 n ++ rest) d
      = parseDelayAux rest.length rest { d with MinMillis := n } := by
  by_cases hn : n = 0
  · subst hn
    have hd : ({ d with MinMillis := 0 } : DelayConfig) = d := by
      have := h.resolve_left (by simp)
      cases d
      simp_all
    simp only [pbVarintField, if_pos rfl, List.nil_append] at hfuel ⊢
    rw [hd]
    exact parseDelayAux_irrel fuel rest d fuel rest.length hfuel hfuel le_rfl
  · simp only [pbVarintField, if_neg hn, List.cons_append, List.append_assoc] at hfuel ⊢
    match fuel with
    | 0 => simp at hfuel
    | f + 1 =>
      simp only [parseDelayAux, parseVarint_append]
      simp only [List.length_cons, List.length_append] at hfuel
      exact parseDelayAux_irrel f rest _ f rest.length (by omega) (by omega) le_rfl

/-- Parsing one serialized MaxMillis field. -/
theorem parseDelayAux_step24 (n : Nat) (rest : List Nat) (d : DelayConfig) (fuel : Nat)
    (hfuel : (pbVarintField 24 n ++ rest).length ≤ fuel) (h : n ≠ 0 ∨ d.MaxMillis = n) :
    parseDelayAux fuel (pbVarintField 24 n ++ rest) d
      = parseDelayAux rest.length rest { d with MaxMillis := n } := by
  by_cases hn : n = 0
  · subst hn
    have hd : ({ d with MaxMillis := 0 } : DelayConfig) = d := by
      have := h.resolve_left (by simp)
      cases d
      simp_all
    simp only [pbVarintField, if_pos rfl, List.nil_append] at hfuel ⊢
    rw [hd]
    exact parseDelayAux_irrel fuel rest d fuel rest.length hfuel hfuel le_rfl
  · simp only [pbVarintField, if_neg hn, List.cons_append, List.append_assoc] at hfuel ⊢
    match fuel with
    | 0 => simp at hfuel
    | f + 1 =>
      simp only [parseDelayAux, parseVarint_append]
      simp only [List.length_cons, List.length_append] at hfuel
      exact parseDelayAux_irrel f rest _ f rest.length (by omega) (by omega) le_rfl

/-- The DelayConfig deserializer inverts its serializer. -/
theorem parseDelay_marshal (d : DelayConfig) : parseDelay (marshalDelay d) = some d := by
  unfold parseDelay marshalDelay
  rw [List.append_assoc]
  rw [show pbVarintField 24 d.MaxMillis = pbVarintField 24 d.MaxMillis ++ [] from (List.append_nil _).symm]
  rw [parseDelayAux_step8 _ _ _ _ le_rfl (bool_field_case _)]
  rw [parseDelayAux_step16 _ _ _ _ le_rfl (nat_field_case _)]
  rw [parseDelayAux_step24 _ _ _ _ le_rfl (nat_field_case _)]
  rfl

/-- Parsing one serialized TimeoutMillis field. -/
theorem parseSchedulerAux_step8 (n : Nat) (rest : List Nat) (s : SchedulerConfig) (fuel : Nat)
    (hfuel : (pbVarintField 8 n ++ rest).length ≤ fuel) (h : n ≠ 0 ∨ s.TimeoutMillis = n) :
    parseSchedulerAux fuel (pbVarintField 8 n ++ rest) s
      = parseSchedulerAux rest.length rest { s with TimeoutMillis := n } := by
  by_cases hn : n = 0
  · subst hn
    have hs : ({ s with TimeoutMillis := 0 } : SchedulerConfig) = s := by
      have := h.resolve_left (by simp)
      cases s
      simp_all
    simp only [pbVarintField, if_pos rfl, List.nil_append] at hfuel ⊢
    rw [hs]
    exact parseSchedulerAux_irrel fuel rest s fuel rest.length hfuel hfuel le_rfl
  · simp only [pbVarintField, if_neg hn, List.cons_append, List.append_assoc] at hfuel ⊢
    match fuel with
    | 0 => simp at hfuel
    | f + 1 =>
      simp only [parseSchedulerAux, parseVarint_append]
      simp only [List.length_cons, List.length_append] at hfuel
      exact parseSchedulerAux_irrel f rest _ f rest.length (by omega) (by omega) le_rfl

/-- The SchedulerConfig deserializer inverts its serializer. -/
theorem parseScheduler_marshal (s : SchedulerConfig) : parseScheduler (marshalScheduler s) = some s := by
  unfold parseScheduler marshalScheduler
  rw [show pbVarintField 8 s.TimeoutMillis = pbVarintField 8 s.TimeoutMillis ++ [] from (List.append_nil _).symm]
  rw [parseSchedulerAux_step8 _ _ _ _ le_rfl (nat_field_case _)]
  rfl

/-- Either a bytes field is non-empty or the default accumulator already
holds it. -/
theorem bytes_field_case (s : List Nat) : s ≠ [] ∨ ([] : List Nat) = s := by
  rcases eq_or_ne s [] with h | h
  · exact Or.inr h.symm
  · exact Or.inl h

/-- Parsing one serialized Flow field of the Addons record. -/
theorem parseAddonsAux_step10 (s rest : List Nat) (a : Addons) (fuel : Nat)
    (hfuel : (pbBytesField 10 s ++ rest).length ≤ fuel) (h : s ≠ [] ∨ a.Flow = s) :
    parseAddonsAux fuel (pbBytesField 10 s ++ rest) a
      = parseAddonsAux rest.length rest { a with Flow := s } := by
  by_cases hs : s = []
  · subst hs
    have ha : ({ a with Flow := [] } : Addons) = a := by
      have := h.resolve_left (by simp)
      cases a
      simp_all
    simp only [pbBytesField, if_pos rfl, List.nil_append] at hfuel ⊢
    rw [ha]
    exact parseAddonsAux_irrel fuel rest a fuel rest.length hfuel hfuel le_rfl
  · simp only [pbBytesField, if_neg hs, pbLenField, List.cons_append, List.append_assoc] at hfuel ⊢
    match fuel with
    | 0 => simp at hfuel
    | f + 1 =>
      simp only [parseAddonsAux, parseLen_append]
      simp only [List.length_cons, List.length_append] at hfuel
      exact parseAddonsAux_irrel f rest _ f rest.length (by omega) (by omega) le_rfl

/-- Parsing one serialized Seed field of the Addons record. -/
theorem parseAddonsAux_step18 (s rest : List Nat) (a : Addons) (fuel : Nat)
    (hfuel : (pbBytesField 18 s ++ rest).length ≤ fuel) (h : s ≠ [] ∨ a.Seed = s) :
    parseAddonsAux fuel (pbBytesField 18 s ++ rest) a
      = parseAddonsAux rest.length rest { a with Seed := s } := by
  by_cases hs : s = []
  · subst hs
    have ha : ({ a with Seed := [] } : Addons) = a := by
      have := h.resolve_left (by simp)
      cases a
      simp_all
    simp only [pbBytesField, if_pos rfl, List.nil_append] at hfuel ⊢
    rw [ha]
    exact parseAddonsAux_irrel fuel rest a fuel rest.length hfuel hfuel le_rfl
  · simp only [pbBytesField, if_neg hs, pbLenField, List.cons_append, List.append_assoc] at hfuel ⊢
    match fuel with
    | 0 => simp at hfuel
    | f + 1 =>
      simp only [parseAddonsAux, parseLen_append]
      simp only [List.length_cons, List.length_append] at hfuel
      exact parseAddonsAux_irrel f rest _ f rest.length (by omega) (by omega) le_rfl

/-- Parsing one serialized Mode field of the Addons record. -/
theorem parseAddonsAux_step24 (n : Nat) (rest : List Nat) (a : Addons) (fuel : Nat)
    (hfuel : (pbVarintField 24 n ++ rest).length ≤ fuel) (h : n ≠ 0 ∨ a.Mode = n) :
    parseAddonsAux fuel (pbVarintField 24 n ++ rest) a
      = parseAddonsAux rest.length rest { a with Mode := n } := by
  by_cases hn : n = 0
  · subst hn
    have ha : ({ a with Mode := 0 } : Addons) = a := by
      have := h.resolve_left (by simp)
      cases a
      simp_all
    simp only [pbVarintField, if_pos rfl, List.nil_append] at hfuel ⊢
    rw [ha]
    exact parseAddonsAux_irrel fuel rest a fuel rest.length hfuel hfuel le_rfl
  · simp only [pbVarintField, if_neg hn, List.cons_append, List.append_assoc] at hfuel ⊢
    match fuel with
    | 0 => simp at hfuel
    | f + 1 =>
      simp only [parseAddonsAux, parseVarint_append]
      simp only [List.length_cons, List.length_append] at hfuel
      exact parseAddonsAux_irrel f rest _ f rest.length (by omega) (by omega) le_rfl

/-- Parsing one serialized Duration field of the Addons record. -/
theorem parseAddonsAux_step34 (s rest : List Nat) (a : Addons) (fuel : Nat)
    (hfuel : (pbBytesField 34 s ++ rest).length ≤ fuel) (h : s ≠ [] ∨ a.Duration = s) :
    parseAddonsAux fuel (pbBytesField 34 s ++ rest) a
      = parseAddonsAux rest.length rest { a with Duration := s } := by
  by_cases hs : s = []
  · subst hs
    have ha : ({ a with Duration := [] } : Addons) = a := by
      have := h.resolve_left (by simp)
      cases a
      simp_all
    simp only [pbBytesField, if_pos rfl, List.nil_append] at hfuel ⊢
    rw [ha]
    exact parseAddonsAux_irrel fuel rest a fuel rest.length hfuel hfuel le_rfl
  · simp only [pbBytesField, if_neg hs, pbLenField, List.cons_append, List.append_assoc] at hfuel ⊢
    match fuel with
    | 0 => simp at hfuel
    | f + 1 =>
      simp only [parseAddonsAux, parseLen_append]
      simp only [List.length_cons, List.length_append] at hfuel
      exact parseAddonsAux_irrel f rest _ f rest.length (by omega) (by omega) le_rfl

/-- Parsing one serialized Padding sub-record of the Addons record. -/
theorem parseAddonsAux_step42 (P : Option PaddingConfig) (rest : List Nat) (a : Addons) (fuel : Nat)
    (hfuel : (pbMsgField 42 (P.map marshalPadding) ++ rest).length ≤ fuel)
    (h : P.isSome ∨ a.Padding = P) :
    parseAddonsAux fuel (pbMsgField 42 (P.map marshalPadding) ++ rest) a
      = parseAddonsAux rest.length rest { a with Padding := P } := by
  cases P with
  | none =>
    have ha : ({ a with Padding := none } : Addons) = a := by
      have := h.resolve_left (by simp)
      cases a
      simp_all
    simp only [Option.map_none', pbMsgField, List.nil_append] at hfuel ⊢
    rw [ha]
    exact parseAddonsAux_irrel fuel rest a fuel rest.length hfuel hfuel le_rfl
  | some p =>
    simp only [Option.map_some', pbMsgField, pbLenField, List.cons_append,
      List.append_assoc] at hfuel ⊢
    match fuel with
    | 0 => simp at hfuel
    | f + 1 =>
      simp only [parseAddonsAux, parseLen_append, parsePadding_marshal]
      simp only [List.length_cons, List.length_append] at hfuel
      exact parseAddonsAux_irrel f rest _ f rest.length (by omega) (by omega) le_rfl

/-- Parsing one serialized Delay sub-record of the Addons record. -/
theorem parseAddonsAux_step50 (D : Option DelayConfig) (rest : List Nat) (a : Addons) (fuel : Nat)
    (hfuel : (pbMsgField 50 (D.map marshalDelay) ++ rest).length ≤ fuel)
    (h : D.isSome ∨ a.Delay = D) :
    parseAddonsAux fuel (pbMsgField 50 (D.map marshalDelay) ++ rest) a
      = parseAddonsAux rest.length rest { a with Delay := D } := by
  cases D with
  | none =>
    have ha : ({ a with Delay := none } : Addons) = a := by
      have := h.resolve_left (by simp)
      cases a
      simp_all
    simp only [Option.map_none', pbMsgField, List.nil_append] at hfuel ⊢
    rw [ha]
    exact parseAddonsAux_irrel fuel rest a fuel rest.length hfuel hfuel le_rfl
  | some d =>
    simp only [Option.map_some', pbMsgField, pbLenField, List.cons_append,
      List.append_assoc] at hfuel ⊢
    match fuel with
    | 0 => simp at hfuel
    | f + 1 =>
      simp only [parseAddonsAux, parseLen_append, parseDelay_marshal]
      simp only [List.length_cons, List.length_append] at hfuel
      exact parseAddonsAux_irrel f rest _ f rest.length (by omega) (by omega) le_rfl

/-- Parsing one serialized Scheduler sub-record of the Addons record. -/
theorem parseAddonsAux_step58 (S : Option SchedulerConfig) (rest : List Nat) (a : Addons) (fuel : Nat)
    (hfuel : (pbMsgField 58 (S.map marshalScheduler) ++ rest).length ≤ fuel)
    (h : S.isSome ∨ a.Scheduler = S) :
    parseAddonsAux fuel (pbMsgField 58 (S.map marshalScheduler) ++ rest) a
      = parseAddonsAux rest.length rest { a with Scheduler := S } := by
  cases S with
  | none =>
    have ha : ({ a with Scheduler := none } : Addons) = a := by
      have := h.resolve_left (by simp)
      cases a
      simp_all
    simp only [Option.map_none', pbMsgField, List.nil_append] at hfuel ⊢
    rw [ha]
    exact parseAddonsAux_irrel fuel rest a fuel rest.length hfuel hfuel le_rfl
  | some s =>
    simp only [Option.map_some', pbMsgField, pbLenField, List.cons_append,
      List.append_assoc] at hfuel ⊢
    match fuel with
    | 0 => simp at hfuel
    | f + 1 =>
      simp only [parseAddonsAux, parseLen_append, parseScheduler_marshal]
      simp only [List.length_cons, List.length_append] at hfuel
      exact parseAddonsAux_irrel f rest _ f rest.length (by omega) (by omega) le_rfl

/-- Either a sub-record is present or the default accumulator already
holds its absence. -/
theorem option_field_case {α : Type} (o : Option α) : o.isSome ∨ (none : Option α) = o := by
  cases o <;> simp

/-- proto.Unmarshal inverts proto.Marshal on every Addons record. -/
theorem unmarshal_marshal (a : Addons) : unmarshal (marshal a) = some a := by
  unfold unmarshal marshal
  rw [List.append_assoc, List.append_assoc, List.append_assoc, List.append_assoc,
    List.append_assoc]
  rw [show pbMsgField 58 (a.Scheduler.map marshalScheduler)
      = pbMsgField 58 (a.Scheduler.map marshalScheduler) ++ [] from (List.append_nil _).symm]
  rw [parseAddonsAux_step10 _ _ _ _ le_rfl (bytes_field_case _)]
  rw [parseAddonsAux_step18 _ _ _ _ le_rfl (bytes_field_case _)]
  rw [parseAddonsAux_step24 _ _ _ _ le_rfl (nat_field_case _)]
  rw [parseAddonsAux_step34 _ _ _ _ le_rfl (bytes_field_case _)]
  rw [parseAddonsAux_step42 _ _ _ _ le_rfl (option_field_case _)]
  rw [parseAddonsAux_step50 _ _ _ _ le_rfl (option_field_case _)]
  rw [parseAddonsAux_step58 _ _ _ _ le_rfl (option_field_case _)]
  rfl

/-- The chunking loop of the reader: on a stream of exactly the announced
length it succeeds, returns chunks that concatenate back to the stream, in
ceiling of length over BufSize pieces, each of at most BufSize bytes. -/
theorem readChunksAux_spec : ∀ (fuel L : Nat) (stream : List Nat), L ≤ fuel → stream.length = L →
    ∃ out, readChunksAux fuel L stream = some out ∧ out.flatten = stream ∧
      out.length = (L + BufSize - 1) / BufSize ∧ ∀ c ∈ out, c.length ≤ BufSize := by
  intro fuel
  induction fuel with
  | zero =>
    intro L stream hL hS
    have hL0 : L = 0 := by omega
    subst hL0
    have : stream = [] := List.eq_nil_of_length_eq_zero hS
    subst this
    refine ⟨[], by simp [readChunksAux], by simp, by simp [BufSize], by simp⟩
  | succ f ih =>
    intro L stream hL hS
    by_cases h0 : L = 0
    · subst h0
      have : stream = [] := List.eq_nil_of_length_eq_zero hS
      subst this
      refine ⟨[], by simp [readChunksAux], by simp, by simp [BufSize], by simp⟩
    · have hsize1 : 1 ≤ min L BufSize := by
        simp only [BufSize]
        omega
      obtain ⟨out', hEq, hFl, hCt, hLe⟩ :=
        ih (L - min L BufSize) (stream.drop (min L BufSize))
          (by omega)
          (by simp only [List.length_drop]; omega)
      refine ⟨stream.take (min L BufSize) :: out', ?_, ?_, ?_, ?_⟩
      · simp only [readChunksAux, if_neg h0]
        rw [if_neg (by omega)]
        rw [hEq]
      · simp only [List.flatten_cons, hFl, List.take_append_drop]
      · simp only [List.length_cons, hCt, BufSize] at *
        omega
      · intro c hc
        rcases List.mem_cons.mp hc with h | h
        · subst h
          simp only [List.length_take]
          omega
        · exact hLe c h

/-- A 64-bit counter that stays in the signed range is unchanged by
wrapping. -/
theorem wrap64_eq (x : Int) (h0 : 0 ≤ x) (h1 : x < 2 ^ 63) : wrap64 x = x := by
  unfold wrap64
  have e63 : (2 : Int) ^ 63 = 9223372036854775808 := by norm_num
  have e64 : (2 : Int) ^ 64 = 18446744073709551616 := by norm_num
  rw [Int.emod_eq_of_lt (by omega) (by omega)]
  omega

/-- The seq values of the launched POSTs starting from counter c are
c, c + 1, c + 2, and so on, as long as the int64 counter cannot wrap. -/
theorem uploadProducerLoop_seqs : ∀ (chunks : List (List (List Nat))) (c : Int),
    0 ≤ c → c + chunks.length ≤ 2 ^ 63 →
    (uploadProducerLoop c chunks).map Prod.fst
      = (List.range chunks.length).map (fun i : Nat => c + (i : Int)) := by
  intro chunks
  induction chunks with
  | nil => intro c _ _; simp [uploadProducerLoop]
  | cons a rest ih =>
    intro c h0 hlen
    simp only [List.length_cons] at hlen
    simp only [uploadProducerLoop, List.map_cons]
    cases rest with
    | nil =>
      simp [uploadProducerLoop, List.range_succ]
    | cons b t =>
      have hw : wrap64 (c + 1) = c + 1 := by
        apply wrap64_eq _ (by omega)
        simp only [List.length_cons] at hlen
        omega
      rw [hw, ih (c + 1) (by omega) (by simp only [List.length_cons] at hlen ⊢; omega)]
      conv_rhs => rw [show ((a :: b :: t : List (List (List Nat)))).length
          = (b :: t).length + 1 from rfl, List.range_succ_eq_map]
      simp only [List.map_cons, List.map_map, Nat.cast_zero, add_zero, List.cons.injEq, true_and]
      apply List.map_congr_left
      intro i _
      simp only [Function.comp_apply, Nat.succ_eq_add_one]
      push_cast
      ring

/-- Every reachable gate state splits the n permits between free and
in-flight. -/
theorem gateReachable_inv (n : Nat) (s : GateState) (h : GateReachable n s) :
    s.permits + s.inflight = n := by
  induction h with
  | init => simp
  | step _ hstep ih =>
    cases hstep with
    | launch p f => simp only at ih ⊢; omega
    | finish p f => simp only at ih ⊢; omega

/-- The per-element loop of the multi-length writer keeps exactly the
fitting non-empty elements, framed with their two-byte big-endian length,
in order. -/
theorem multiLengthWriteLoop_eq : ∀ mb : List (List Nat),
    multiLengthWriteLoop mb
      = (mb.filter (fun b => decide (b.length ≠ 0 ∧ b.length + 2 ≤ BufSize))).map
          (fun b => b.length / 256 :: b.length % 256 :: b) := by
  intro mb
  induction mb with
  | nil => simp [multiLengthWriteLoop]
  | cons b mb ih =>
    by_cases hskip : b.length = 0 ∨ BufSize < b.length + 2
    · have hfilt : (fun b => decide (b.length ≠ 0 ∧ b.length + 2 ≤ BufSize)) b = false := by
        simp only [decide_eq_false_iff_not]
        omega
      simp only [multiLengthWriteLoop, if_pos hskip, List.filter_cons, hfilt, Bool.false_eq_true,
        if_neg (by simp : ¬False)]
      simpa using ih
    · have hfilt : (fun b => decide (b.length ≠ 0 ∧ b.length + 2 ≤ BufSize)) b = true := by
        simp only [decide_eq_true_eq]
        omega
      have hlen : b.length + 2 ≤ BufSize := by omega
      simp only [multiLengthWriteLoop, if_neg hskip, List.filter_cons, hfilt]
      simp only [show (Buffer.writeByte ⟨[]⟩ ((b.length >>> 8) % 256))
          = some ⟨[(b.length >>> 8) % 256]⟩ from rfl]
      simp only [show (Buffer.writeByte ⟨[(b.length >>> 8) % 256]⟩ (b.length % 256))
          = some ⟨[(b.length >>> 8) % 256, b.length % 256]⟩ from rfl]
      rw [ih]
      have h256 : b.length / 256 < 256 := by
        simp only [BufSize] at hlen
        omega
      have hhi : b.length >>> 8 % 256 = b.length / 256 := by
        rw [Nat.shiftRight_eq_div_pow]
        norm_num
        exact h256
      have hwrite : (Buffer.write ⟨[b.length >>> 8 % 256, b.length % 256]⟩ b).1.data
          = [b.length >>> 8 % 256, b.length % 256] ++ b := by
        simp only [Buffer.write, List.length_cons, List.length_nil]
        rw [List.take_of_length_le (by omega)]
      simp only [if_true]
      rw [hwrite]
      simp only [List.cons_append, List.nil_append, hhi, List.map_cons]

/-- Exact output of EncodeHeaderAddons on a fresh buffer: in the serialize
branch one byte of truncated length then the serialized bytes clipped to
the buffer capacity; otherwise a single zero byte. -/
theorem encodeHeaderAddons_eq (a : Addons) :
    ((a.Flow = XRV ∨ 0 < a.Seed.length) →
      EncodeHeaderAddons ⟨[]⟩ a
        = some ⟨(marshal a).length % 256 :: (marshal a).take (BufSize - 1)⟩) ∧
    (¬(a.Flow = XRV ∨ 0 < a.Seed.length) →
      EncodeHeaderAddons ⟨[]⟩ a = some ⟨[0]⟩) := by
  constructor
  · intro h
    simp only [EncodeHeaderAddons, if_pos h]
    simp only [show Buffer.writeByte ⟨[]⟩ ((marshal a).length % 256)
        = some ⟨[(marshal a).length % 256]⟩ from rfl]
    simp only [Buffer.write, List.length_cons, List.length_nil, Option.some.injEq]
    have htake : (marshal a).take (min (BufSize - (0 + 1)) (marshal a).length)
        = (marshal a).take (BufSize - 1) := by
      rcases le_total (marshal a).length (BufSize - 1) with hle | hle
      · rw [min_eq_right (by omega), List.take_of_length_le hle, List.take_of_length_le le_rfl]
      · rw [min_eq_left (by omega)]
    simp only [Nat.zero_add] at htake ⊢
    rw [htake]
    rfl
  · intro h
    simp only [EncodeHeaderAddons, if_neg h]
    rfl

/-- In the serialize branch the serialized record is never empty. -/
theorem marshal_length_pos (a : Addons) (h : a.Flow = XRV ∨ 0 < a.Seed.length) :
    0 < (marshal a).length := by
  simp only [marshal, List.length_append]
  rcases h with h | h
  · have : (pbBytesField 10 a.Flow).length = 18 := by
      rw [h]
      rfl
    omega
  · have hne : a.Seed ≠ [] := by
      intro hc
      rw [hc] at h
      simp at h
    have : 0 < (pbBytesField 18 a.Seed).length := by
      simp [pbBytesField, if_neg hne, pbLenField]
    omega

/-- C1: the claim as stated is false: for the record with a 300-byte Seed
the binary serialization is 303 bytes, which exceeds 255, yet
EncodeHeaderAddons returns no error (it writes the length byte truncated
modulo 256). -/
theorem C1_counterexample :
    255 < (marshal ⟨[], List.replicate 300 1, 0, [], none, none, none⟩).length ∧
    EncodeHeaderAddons ⟨[]⟩ ⟨[], List.replicate 300 1, 0, [], none, none, none⟩ ≠ none := by
  decide

/-- C1 (amended): for every addons record with Flow xtls-rprx-vision or a
non-empty Seed, EncodeHeaderAddons writes one length byte equal to the
serialized size reduced modulo 256 followed by the serialized bytes
(clipped to the buffer capacity), succeeding even when the serialized form
exceeds 255 bytes; for every other record it writes exactly one zero byte
and succeeds. -/
theorem C1_encodeHeaderAddons (a : Addons) :
    ((a.Flow = XRV ∨ 0 < a.Seed.length) →
      EncodeHeaderAddons ⟨[]⟩ a
        = some ⟨(marshal a).length % 256 :: (marshal a).take (BufSize - 1)⟩) ∧
    (¬(a.Flow = XRV ∨ 0 < a.Seed.length) →
      EncodeHeaderAddons ⟨[]⟩ a = some ⟨[0]⟩) :=
  encodeHeaderAddons_eq a

/-- C1 witness: the amended statement evaluated on a vision-flow record and
on the empty record. -/
theorem C1_encodeHeaderAddons_witness :
    ((Addons.mk XRV [] 0 [] none none none).Flow = XRV ∨
      0 < (Addons.mk XRV [] 0 [] none none none).Seed.length) ∧
    EncodeHeaderAddons ⟨[]⟩ (Addons.mk XRV [] 0 [] none none none)
      = some ⟨(marshal (Addons.mk XRV [] 0 [] none none none)).length % 256 ::
          (marshal (Addons.mk XRV [] 0 [] none none none)).take (BufSize - 1)⟩ ∧
    ¬(emptyAddons.Flow = XRV ∨ 0 < emptyAddons.Seed.length) ∧
    EncodeHeaderAddons ⟨[]⟩ emptyAddons = some ⟨[0]⟩ := by
  refine ⟨Or.inl rfl, (C1_encodeHeaderAddons _).1 (Or.inl rfl), ?_, ?_⟩
  · decide
  · exact (C1_encodeHeaderAddons _).2 (by decide)

/-- C3: the claim as stated is false: the record with a 300-byte Seed
satisfies the serialize condition, but decoding its encoded form fails
(returns none) instead of returning the record, because the length byte
was truncated modulo 256. -/
theorem C3_counterexample :
    ((Addons.mk [] (List.replicate 300 1) 0 [] none none none).Flow = XRV ∨
      0 < (Addons.mk [] (List.replicate 300 1) 0 [] none none none).Seed.length) ∧
    (EncodeHeaderAddons ⟨[]⟩ (Addons.mk [] (List.replicate 300 1) 0 [] none none none)).map
      (fun b => DecodeHeaderAddons b.data) = some none ∧
    (EncodeHeaderAddons ⟨[]⟩ (Addons.mk [] (List.replicate 300 1) 0 [] none none none)).map
      (fun b => DecodeHeaderAddons b.data)
      ≠ some (some (Addons.mk [] (List.replicate 300 1) 0 [] none none none)) := by
  refine ⟨by decide, by decide, ?_⟩
  intro hc
  have : (some (none : Option Addons)) = some (some (Addons.mk [] (List.replicate 300 1) 0 [] none none none)) := by
    rw [← hc]
    decide
  simp at this

/-- C3 (amended): decode inverts encode whenever the record satisfies the
serialize condition and its serialized form is at most 255 bytes (so the
length byte is not truncated); for every other record the encoded form is
exactly the single zero byte and decoding it returns the empty record. -/
theorem C3_addonCodec_roundtrip (a : Addons) :
    (∀ b : Buffer, (a.Flow = XRV ∨ 0 < a.Seed.length) → (marshal a).length ≤ 255 →
      EncodeHeaderAddons ⟨[]⟩ a = some b → DecodeHeaderAddons b.data = some a) ∧
    (¬(a.Flow = XRV ∨ 0 < a.Seed.length) →
      EncodeHeaderAddons ⟨[]⟩ a = some ⟨[0]⟩ ∧ DecodeHeaderAddons [0] = some emptyAddons) := by
  constructor
  · intro b hcond hlen henc
    rw [(encodeHeaderAddons_eq a).1 hcond] at henc
    have hmod : (marshal a).length % 256 = (marshal a).length := Nat.mod_eq_of_lt (by omega)
    have htake : (marshal a).take (BufSize - 1) = marshal a :=
      List.take_of_length_le (by simp only [BufSize]; omega)
    have hb : b.data = (marshal a).length :: marshal a := by
      cases henc.symm
      rw [hmod, htake]
    rw [hb]
    have hpos := marshal_length_pos a hcond
    simp only [DecodeHeaderAddons, if_neg (by omega : ¬(marshal a).length = 0)]
    rw [if_neg (by omega)]
    rw [List.take_length]
    exact unmarshal_marshal a
  · intro h
    exact ⟨(encodeHeaderAddons_eq a).2 h, rfl⟩

/-- C3 witness: the round trip evaluated on a vision-flow record, and the
zero-byte branch on the empty record. -/
theorem C3_addonCodec_roundtrip_witness :
    (((Addons.mk XRV [] 0 [] none none none).Flow = XRV ∨
        0 < (Addons.mk XRV [] 0 [] none none none).Seed.length) ∧
      (marshal (Addons.mk XRV [] 0 [] none none none)).length ≤ 255 ∧
      EncodeHeaderAddons ⟨[]⟩ (Addons.mk XRV [] 0 [] none none none)
        = some ⟨18 :: marshal (Addons.mk XRV [] 0 [] none none none)⟩ ∧
      DecodeHeaderAddons (Buffer.data ⟨18 :: marshal (Addons.mk XRV [] 0 [] none none none)⟩)
        = some (Addons.mk XRV [] 0 [] none none none)) ∧
    (¬(emptyAddons.Flow = XRV ∨ 0 < emptyAddons.Seed.length) ∧
      EncodeHeaderAddons ⟨[]⟩ emptyAddons = some ⟨[0]⟩ ∧
      DecodeHeaderAddons [0] = some emptyAddons) := by
  refine ⟨⟨by decide, by decide, by decide,
    (C3_addonCodec_roundtrip _).1 _ (by decide) (by decide) (by decide)⟩, ?_⟩
  have h2 := (C3_addonCodec_roundtrip emptyAddons).2 (by decide)
  exact ⟨by decide, h2.1, h2.2⟩

/-- C2: for every multi-buffer of total length between 1 and 65535 with
inner buffers of at most BufSize bytes, the writer emits the two-byte
big-endian length header followed by the concatenated payload, and reading
the written record back yields the same byte sequence, chunked into
ceiling of length over BufSize buffers in order. -/
theorem C2_lengthPacket_roundtrip (mb : List (List Nat))
    (h0 : 0 < mb.flatten.length) (h1 : mb.flatten.length ≤ 65535)
    (_h2 : ∀ b ∈ mb, b.length ≤ BufSize) :
    LengthPacketWriter.WriteMultiBuffer mb
      = mb.flatten.length / 256 :: mb.flatten.length % 256 :: mb.flatten ∧
    ∃ out, LengthPacketReader.ReadMultiBuffer (LengthPacketWriter.WriteMultiBuffer mb) = some out ∧
      out.flatten = mb.flatten ∧
      out.length = (mb.flatten.length + BufSize - 1) / BufSize ∧
      ∀ c ∈ out, c.length ≤ BufSize := by
  have hw : LengthPacketWriter.WriteMultiBuffer mb
      = mb.flatten.length / 256 :: mb.flatten.length % 256 :: mb.flatten := by
    simp only [LengthPacketWriter.WriteMultiBuffer, if_neg (by omega : ¬mb.flatten.length = 0)]
    have : mb.flatten.length >>> 8 % 256 = mb.flatten.length / 256 := by
      rw [Nat.shiftRight_eq_div_pow, show (2 : Nat) ^ 8 = 256 from by norm_num]
      exact Nat.mod_eq_of_lt (by omega)
    rw [this]
  refine ⟨hw, ?_⟩
  rw [hw]
  simp only [LengthPacketReader.ReadMultiBuffer]
  rw [show mb.flatten.length / 256 * 256 + mb.flatten.length % 256 = mb.flatten.length from by omega]
  exact readChunksAux_spec mb.flatten.length mb.flatten.length mb.flatten le_rfl rfl

/-- C2 witness: the round trip evaluated on the two-buffer multi-buffer
of bytes 1 2 and 3. -/
theorem C2_lengthPacket_roundtrip_witness :
    (0 < ([[1, 2], [3]] : List (List Nat)).flatten.length ∧
      ([[1, 2], [3]] : List (List Nat)).flatten.length ≤ 65535 ∧
      ∀ b ∈ ([[1, 2], [3]] : List (List Nat)), b.length ≤ BufSize) ∧
    LengthPacketWriter.WriteMultiBuffer [[1, 2], [3]]
      = ([[1, 2], [3]] : List (List Nat)).flatten.length / 256 ::
        ([[1, 2], [3]] : List (List Nat)).flatten.length % 256 ::
        ([[1, 2], [3]] : List (List Nat)).flatten ∧
    ∃ out, LengthPacketReader.ReadMultiBuffer (LengthPacketWriter.WriteMultiBuffer [[1, 2], [3]])
        = some out ∧
      out.flatten = ([[1, 2], [3]] : List (List Nat)).flatten ∧
      out.length = (([[1, 2], [3]] : List (List Nat)).flatten.length + BufSize - 1) / BufSize ∧
      ∀ c ∈ out, c.length ≤ BufSize := by
  have h := C2_lengthPacket_roundtrip [[1, 2], [3]] (by decide) (by decide) (by decide)
  exact ⟨⟨by decide, by decide, by decide⟩, h.1, h.2⟩

/-- C7: the multi-length writer drops exactly the empty and oversized
elements, frames every retained element in order as two big-endian length
bytes followed by its payload, and commits nothing (successfully) exactly
when no element is retained. -/
theorem C7_multiLengthWriter (mb : List (List Nat)) :
    multiLengthWriteLoop mb
      = (mb.filter (fun b => decide (b.length ≠ 0 ∧ b.length + 2 ≤ BufSize))).map
          (fun b => b.length / 256 :: b.length % 256 :: b) ∧
    (MultiLengthPacketWriter.WriteMultiBuffer mb = none ↔
      mb.filter (fun b => decide (b.length ≠ 0 ∧ b.length + 2 ≤ BufSize)) = []) := by
  refine ⟨multiLengthWriteLoop_eq mb, ?_⟩
  simp only [MultiLengthPacketWriter.WriteMultiBuffer, multiLengthWriteLoop_eq mb]
  split_ifs with h
  · exact ⟨fun _ => List.map_eq_nil_iff.mp h, fun _ => rfl⟩
  · refine ⟨(fun hc => nomatch hc), fun hfil => absurd ?_ h⟩
    rw [hfil]
    rfl

/-- The Padding comparison is symmetric. -/
theorem checkPadding_symm (x y : Option PaddingConfig) : checkPadding x y = checkPadding y x := by
  rcases x with _ | p <;> rcases y with _ | q <;> simp [checkPadding, eq_comm]

/-- The Delay comparison is symmetric. -/
theorem checkDelay_symm (x y : Option DelayConfig) : checkDelay x y = checkDelay y x := by
  rcases x with _ | d <;> rcases y with _ | e <;> simp [checkDelay, eq_comm]

/-- The Scheduler comparison is symmetric. -/
theorem checkScheduler_symm (x y : Option SchedulerConfig) :
    checkScheduler x y = checkScheduler y x := by
  rcases x with _ | s <;> rcases y with _ | t <;> simp [checkScheduler, eq_comm]

/-- C4: CheckSeed succeeds symmetrically, and fails exactly when Seed, Mode
or Duration differ, a sub-record is present on only one side, or a
sub-record present on both sides differs on a compared field. -/
theorem C4_checkSeed (a b : Addons) :
    CheckSeed a b = CheckSeed b a ∧
    (CheckSeed a b = false ↔
      a.Seed ≠ b.Seed ∨ a.Mode ≠ b.Mode ∨ a.Duration ≠ b.Duration ∨
      a.Padding.isSome ≠ b.Padding.isSome ∨ a.Delay.isSome ≠ b.Delay.isSome ∨
      a.Scheduler.isSome ≠ b.Scheduler.isSome ∨
      (∃ p q, a.Padding = some p ∧ b.Padding = some q ∧
        (p.RegularMin ≠ q.RegularMin ∨ p.RegularMax ≠ q.RegularMax ∨
         p.LongMin ≠ q.LongMin ∨ p.LongMax ≠ q.LongMax)) ∨
      (∃ d e, a.Delay = some d ∧ b.Delay = some e ∧
        (d.IsRandom ≠ e.IsRandom ∨ d.MinMillis ≠ e.MinMillis ∨ d.MaxMillis ≠ e.MaxMillis)) ∨
      (∃ s t, a.Scheduler = some s ∧ b.Scheduler = some t ∧
        s.TimeoutMillis ≠ t.TimeoutMillis)) := by
  constructor
  · have h1 : decide (a.Seed = b.Seed) = decide (b.Seed = a.Seed) := by
      simp [eq_comm]
    have h2 : decide (a.Mode = b.Mode) = decide (b.Mode = a.Mode) := by
      simp [eq_comm]
    have h3 : decide (a.Duration = b.Duration) = decide (b.Duration = a.Duration) := by
      simp [eq_comm]
    simp only [CheckSeed, h1, h2, h3, checkPadding_symm, checkDelay_symm, checkScheduler_symm]
  · rcases hap : a.Padding with _ | p <;> rcases hbp : b.Padding with _ | q <;>
      rcases had : a.Delay with _ | d <;> rcases hbd : b.Delay with _ | e <;>
      rcases has : a.Scheduler with _ | s <;> rcases hbs : b.Scheduler with _ | t <;>
      simp [CheckSeed, checkPadding, checkDelay, checkScheduler, hap, hbp, had, hbd, has, hbs,
        -ne_eq] <;>
      tauto

/-- C5: the download phase of the SplitHTTP Dial fails with the distinct
status-code error (carrying the received status) when the GET status is not
200, fails with the initial-read error when fewer than two body bytes are
available, and otherwise hands the connection a reader that never sees the
two discarded bytes. -/
theorem C5_dialDownloadPhase (resp : DownResponse) :
    (resp.statusCode ≠ 200 →
      dialDownloadPhase resp = .error (.invalidStatusCode resp.statusCode)) ∧
    (resp.statusCode = 200 → resp.body.length < 2 →
      dialDownloadPhase resp = .error .failedInitialResponse) ∧
    (resp.statusCode = 200 → 2 ≤ resp.body.length →
      dialDownloadPhase resp = .ok (resp.body.drop 2)) ∧
    DialError.invalidStatusCode resp.statusCode ≠ DialError.failedInitialResponse := by
  refine ⟨?_, ?_, ?_, by simp⟩
  · intro h
    simp [dialDownloadPhase, h]
  · intro h200 hlen
    simp [dialDownloadPhase, h200, hlen]
  · intro h200 hlen
    simp only [dialDownloadPhase, h200]
    rw [if_neg (by simp), if_neg (by omega)]

/-- C5 witness: a 404 response, a one-byte 200 response and a four-byte 200
response. -/
theorem C5_dialDownloadPhase_witness :
    ((404 : Nat) ≠ 200 ∧
      dialDownloadPhase ⟨404, [7]⟩ = .error (.invalidStatusCode 404)) ∧
    ((200 : Nat) = 200 ∧ ([9] : List Nat).length < 2 ∧
      dialDownloadPhase ⟨200, [9]⟩ = .error .failedInitialResponse) ∧
    (2 ≤ ([111, 107, 5, 6] : List Nat).length ∧
      dialDownloadPhase ⟨200, [111, 107, 5, 6]⟩ = .ok [5, 6]) := by
  refine ⟨⟨by decide, (C5_dialDownloadPhase ⟨404, [7]⟩).1 (by decide)⟩,
    ⟨rfl, by decide, (C5_dialDownloadPhase ⟨200, [9]⟩).2.1 rfl (by decide)⟩,
    ⟨by decide, (C5_dialDownloadPhase ⟨200, [111, 107, 5, 6]⟩).2.2.1 rfl (by decide)⟩⟩

/-- C6: in any run whose chunk count stays within the int64 range, the seq
values of the launched upload POSTs are exactly 0, 1, 2, and so on: the
prefix of the natural numbers of the run's length. -/
theorem C6_uploadSeqs (chunks : List (List (List Nat))) (h : chunks.length ≤ 2 ^ 63) :
    (uploadProducerLoop 0 chunks).map Prod.fst
      = (List.range chunks.length).map (fun i : Nat => (i : Int)) := by
  have hcast : (0 : Int) + (chunks.length : Int) ≤ 2 ^ 63 := by
    have : ((chunks.length : Nat) : Int) ≤ ((2 ^ 63 : Nat) : Int) := by
      exact_mod_cast h
    push_cast at this
    omega
  have := uploadProducerLoop_seqs chunks 0 le_rfl hcast
  simpa using this

/-- C6 witness: three chunks produce seq values 0, 1, 2. -/
theorem C6_uploadSeqs_witness :
    ([[[1]], [[2]], [[3]]] : List (List (List Nat))).length ≤ 2 ^ 63 ∧
    (uploadProducerLoop 0 [[[1]], [[2]], [[3]]]).map Prod.fst
      = List.map (fun i : Nat => (i : Int))
          (List.range ([[[1]], [[2]], [[3]]] : List (List (List Nat))).length) :=
  ⟨by norm_num, C6_uploadSeqs [[[1]], [[2]], [[3]]] (by norm_num)⟩

/-- C8: when Dispatch fails, forwardConnection logs the error at error
level but still runs both pipeline halves, which dereference the returned
link without a guard and therefore fault instead of reaching a failure-free
completion; with a successful Dispatch both halves complete their copies. -/
theorem C8_forwardConnection :
    (∀ (e : String) (connData : List (List Nat)),
      (forwardConnection (.error e) connData).dispatchErrorLoggedAtError = true ∧
      (forwardConnection (.error e) connData).requestHalf = .error () ∧
      (forwardConnection (.error e) connData).responseHalf = .error ()) ∧
    (∀ (l : TransportLink) (connData : List (List Nat)),
      (forwardConnection (.ok l) connData).dispatchErrorLoggedAtError = false ∧
      (forwardConnection (.ok l) connData).requestHalf = .ok connData ∧
      (forwardConnection (.ok l) connData).responseHalf = .ok l.serverData) :=
  ⟨fun _ _ => ⟨rfl, rfl, rfl⟩, fun _ _ => ⟨rfl, rfl, rfl⟩⟩

/-- C9: in every reachable state of the upload gate, the number of
in-flight POST tasks never exceeds the semaphore size. -/
theorem C9_gateBound (n : Nat) (s : GateState) (h : GateReachable n s) : s.inflight ≤ n := by
  have := gateReachable_inv n s h
  omega

/-- C9 witness: after one launch from a gate of two permits, one POST is in
flight, within the bound of two. -/
theorem C9_gateBound_witness :
    GateReachable 2 ⟨1, 1⟩ ∧ (GateState.mk 1 1).inflight ≤ 2 :=
  have h : GateReachable 2 ⟨1, 1⟩ := GateReachable.step GateReachable.init (GateStep.launch 1 0)
  ⟨h, C9_gateBound 2 ⟨1, 1⟩ h⟩

/-- C10: PopulateSeed with an empty seed leaves the record unchanged; with
any non-empty seed it installs the fixed profile regardless of the seed
content, so any two records populated with non-empty seeds pass
CheckSeed. -/
theorem C10_populateSeed :
    (∀ a : Addons, PopulateSeed [] a = a) ∧
    (∀ (s : List Nat) (a : Addons), s ≠ [] →
      PopulateSeed s a = { a with
                           Seed := [1], Mode := SeedMode_PaddingPlusDelay,
                           Duration := [48, 45, 56], Padding := some ⟨0, 256, 900, 1400⟩,
                           Delay := some ⟨true, 100, 500⟩, Scheduler := some ⟨600⟩ }) ∧
    (∀ (s₁ s₂ : List Nat) (a₁ a₂ : Addons), s₁ ≠ [] → s₂ ≠ [] →
      CheckSeed (PopulateSeed s₁ a₁) (PopulateSeed s₂ a₂) = true) := by
  have hset : ∀ (s : List Nat) (a : Addons), s ≠ [] →
      PopulateSeed s a = { a with
                           Seed := [1], Mode := SeedMode_PaddingPlusDelay,
                           Duration := [48, 45, 56], Padding := some ⟨0, 256, 900, 1400⟩,
                           Delay := some ⟨true, 100, 500⟩, Scheduler := some ⟨600⟩ } := by
    intro s a hs
    simp only [PopulateSeed, if_pos (List.length_pos.mpr hs)]
  refine ⟨?_, hset, ?_⟩
  · intro a
    simp [PopulateSeed]
  · intro s₁ s₂ a₁ a₂ h₁ h₂
    rw [hset s₁ a₁ h₁, hset s₂ a₂ h₂]
    simp [CheckSeed, checkPadding, checkDelay, checkScheduler]

/-- C10 witness: the empty seed fixes the empty record; two different
non-empty seeds on two different records agree under CheckSeed. -/
theorem C10_populateSeed_witness :
    PopulateSeed [] emptyAddons = emptyAddons ∧
    (([5] : List Nat) ≠ [] ∧
      PopulateSeed [5] emptyAddons
        = { emptyAddons with
              Seed := [1], Mode := SeedMode_PaddingPlusDelay,
              Duration := [48, 45, 56], Padding := some ⟨0, 256, 900, 1400⟩,
              Delay := some ⟨true, 100, 500⟩, Scheduler := some ⟨600⟩ }) ∧
    (([5] : List Nat) ≠ [] ∧ ([9, 9] : List Nat) ≠ [] ∧
      CheckSeed (PopulateSeed [5] emptyAddons)
        (PopulateSeed [9, 9] (Addons.mk XRV [] 0 [] none none none)) = true) :=
  ⟨C10_populateSeed.1 emptyAddons,
    ⟨by decide, C10_populateSeed.2.1 [5] emptyAddons (by decide)⟩,
    ⟨by decide, by decide,
      C10_populateSeed.2.2 [5] [9, 9] emptyAddons (Addons.mk XRV [] 0 [] none none none)
        (by decide) (by decide)⟩⟩
